import Mathlib

/-!
Shallow embedding of the pwmgr credential manager core (Rust sources under
`src/`): the transactional entry store (`src/database/mod.rs`,
`src/database/types.rs`) and the synchronization protocol
(`src/command/sync/{mod,client,server}.rs`).

Machine integers are modelled as `Nat` (identifiers are 128-bit ULIDs,
modelled as their numeric value), timestamps (`DateTime<Local>`, second
precision, totally ordered) as `Int`, and the redb tables as plain lists:
the primary table as an association list from id to entry, the tag
multimap as a list of (tag, id) pairs with set-like insertion.
-/

set_option maxHeartbeats 1000000

namespace Pwmgr

/-- Numeric value of a 128-bit ULID (`ServiceId` in `types.rs` wraps `Ulid`). -/
abbrev ServiceId := Nat

/-- Embedding of `Entry` (src/database/types.rs, struct `Entry`).
`properties` (`BTreeMap<String,String>`) is modelled as its list of
key/value pairs; only equality of the map is used by the claims. -/
structure Entry where
  id : ServiceId
  service : String
  aliases : List String
  tags : List String
  properties : List (String × String)
  last_update : Option Int
  removed : Option Bool
  deriving Repr, DecidableEq

/-- `Entry::is_removed`: `self.removed.unwrap_or(false)`. -/
def Entry.is_removed (e : Entry) : Bool := e.removed.getD false

/-- The two redb tables of the store (src/database/mod.rs): `ENTRIES_TABLE`
keyed by `ServiceId` with `Entry` values, and the `TAGS_TABLE` multimap from
tag string to `ServiceId`. -/
structure DB where
  entries : List (ServiceId × Entry)
  tags : List (String × ServiceId)
  deriving Repr, DecidableEq

/-- Lookup in the primary table (redb `table.get(id)`). -/
def lookupRow (l : List (ServiceId × Entry)) (id : ServiceId) : Option Entry :=
  (l.find? (fun p => p.1 == id)).map (·.2)

/-- Upsert into the primary table (redb `table.insert(&id, entry)`
overwrites any row with the same key). -/
def upsertRow (l : List (ServiceId × Entry)) (id : ServiceId) (e : Entry) :
    List (ServiceId × Entry) :=
  (id, e) :: l.filter (fun p => !(p.1 == id))

/-- `EntryReader::get` / `EntryWriter::get` (mod.rs lines 132-136, 223-226). -/
def DB.getEntry (db : DB) (id : ServiceId) : Option Entry :=
  lookupRow db.entries id

/-- `vec_diff` (mod.rs lines 36-46): elements of `a` not contained in `b`,
`none` when that difference is empty. -/
def vec_diff (a b : List String) : Option (List String) :=
  let diff := a.filter (fun v => !(b.contains v))
  if diff.isEmpty then none else some diff

/-- redb multimap `remove(&tag, id)`: drop the (tag, id) pair. -/
def removeTagPair (l : List (String × ServiceId)) (tag : String)
    (id : ServiceId) : List (String × ServiceId) :=
  l.filter (fun p => !(p.1 == tag && p.2 == id))

/-- redb multimap `insert(&tag, id)`: set semantics, no duplicate pairs. -/
def insertTagPair (l : List (String × ServiceId)) (tag : String)
    (id : ServiceId) : List (String × ServiceId) :=
  if (tag, id) ∈ l then l else (tag, id) :: l

/-- Body of `shrink_tag_list` (mod.rs lines 56-67) on the tag table. -/
def removeAll (l : List (String × ServiceId)) (id : ServiceId)
    (ts : List String) : List (String × ServiceId) :=
  ts.foldl (fun acc tag => removeTagPair acc tag id) l

/-- Body of `expand_tag_list` (mod.rs lines 77-88) on the tag table. -/
def insertAll (l : List (String × ServiceId)) (id : ServiceId)
    (ts : List String) : List (String × ServiceId) :=
  ts.foldl (fun acc tag => insertTagPair acc tag id) l

/-- `shrink_tag_list`: remove the id from the multimap under every listed tag. -/
def shrink_tag_list (db : DB) (id : ServiceId) (ts : List String) : DB :=
  { db with tags := removeAll db.tags id ts }

/-- `expand_tag_list`: add the id to the multimap under every listed tag. -/
def expand_tag_list (db : DB) (id : ServiceId) (ts : List String) : DB :=
  { db with tags := insertAll db.tags id ts }

/-- `EntryWriter::put` (mod.rs lines 231-282): maintain the tag index from
the prior row's state, then unconditionally upsert the row. -/
def DB.put (db : DB) (e : Entry) : DB :=
  let id := e.id
  let db1 :=
    match db.getEntry id with
    | some existing =>
      let was_removed := existing.is_removed
      let now_removed := e.is_removed
      if was_removed && !now_removed then
        expand_tag_list db id e.tags
      else if !was_removed && now_removed then
        shrink_tag_list db id existing.tags
      else
        let a := existing.tags
        let b := e.tags
        let db2 :=
          match vec_diff a b with
          | some diff => shrink_tag_list db id diff
          | none => db
        match vec_diff b a with
        | some diff => expand_tag_list db2 id diff
        | none => db2
    | none =>
      if !e.is_removed then expand_tag_list db id e.tags else db
  { db1 with entries := upsertRow db1.entries id e }

/-- `EntryWriter::remove` (mod.rs lines 287-306): strip the existing row's
tags from the multimap, then delete the row; no-op when absent. -/
def DB.remove (db : DB) (id : ServiceId) : DB :=
  match db.getEntry id with
  | some entry =>
    let db1 := shrink_tag_list db id entry.tags
    { db1 with entries := db1.entries.filter (fun p => !(p.1 == id)) }
  | none => db

/-- `EntryReader::all_service` (mod.rs lines 141-149): every key of the
primary table (`ServiceId::range_all()` spans all 128-bit values). -/
def DB.all_service (db : DB) : List ServiceId :=
  db.entries.map (·.1)

/-- `EntryReader::all_service_filtered` (mod.rs lines 154-169). -/
def DB.all_service_filtered (db : DB) (exclude_removed : Bool) :
    List ServiceId :=
  if !exclude_removed then db.all_service
  else db.all_service.filter (fun id =>
    match db.getEntry id with
    | some e => !e.is_removed
    | none => false)

/-- `EntryReader::tagged_service` (mod.rs lines 174-192): ids indexed under
the tag, then defensively filtered to existing, non-removed records. -/
def DB.tagged_service (db : DB) (tag : String) : List ServiceId :=
  let ids := (db.tags.filter (fun p => p.1 == tag)).map (·.2)
  ids.filter (fun id =>
    match db.getEntry id with
    | some e => !e.is_removed
    | none => false)

/-- `EntryReader::all_tags` (mod.rs lines 197-209): tag/count pairs
aggregated over the non-removed records' tag lists. -/
def DB.all_tags (db : DB) : List (String × Nat) :=
  let occs := (db.all_service_filtered true).flatMap (fun id =>
    match db.getEntry id with
    | some e => e.tags
    | none => [])
  occs.dedup.map (fun t => (t, occs.count t))

/-- `EntryManager::with_write_transaction` (mod.rs lines 450-464): run the
closure in a write transaction and commit only in the `Ok` branch.  Models
the redb engine's transaction contract: `begin_write` hands the closure a
private working state, `commit` publishes it, and a transaction dropped
without commit (the `Err` branch) leaves the database unchanged.  The
second component of the result is the store state observable afterwards. -/
def with_write_transaction {α : Type} (db : DB)
    (f : DB → Except String (α × DB)) : Except String α × DB :=
  match f db with
  | .ok (v, db2) => (.ok v, db2)
  | .error e => (.error e, db)

/-! ### Wire protocol and sync orchestration (src/command/sync) -/

/-- `PROTOCOL_VERSION` (sync/mod.rs line 29). -/
def PROTOCOL_VERSION : Nat := 1

/-- `NodeRole` (sync/mod.rs lines 226-236). -/
inductive NodeRole
  | Server
  | Client
  deriving Repr, DecidableEq

/-- `SyncPacket` (sync/mod.rs lines 35-80), with the fields of the payload
structs inlined.  `entry_id` of `EntryAck` is the record id (the source
carries its 26-character ULID string, an injective image). -/
inductive SyncPacket
  | hello (protocol_version : Nat) (node_id : String) (role : NodeRole)
      (now_epoch_ms : Nat)
  | helloAck (protocol_version : Nat) (accepted : Bool) (reason : Option String)
  | serverEntry (entry : Entry)
  | serverEntriesEnd (total_sent : Nat)
  | clientEntry (entry : Entry)
  | clientEntriesEnd (total_sent : Nat)
  | entryAck (entry_id : ServiceId) (accepted : Bool) (reason : Option String)
  | finished
  | abort (reason : String)
  deriving Repr, DecidableEq

/-- `EntryDecision` (client.rs lines 201-208). -/
inductive EntryDecision
  | AdoptRemote
  | KeepLocal
  | Abort (reason : String)
  deriving Repr, DecidableEq

/-- `is_same_entry` (client.rs lines 264-271): content equality modulo the
timestamp. -/
def is_same_entry (a b : Entry) : Bool :=
  a.id == b.id
    && a.service == b.service
    && a.aliases == b.aliases
    && a.tags == b.tags
    && a.properties == b.properties
    && a.is_removed == b.is_removed

/-- `decide_entry` (client.rs lines 213-259).  The prompter is modelled by
the boolean answer `confirm` it would give; the second component of the
result records whether `prompter.confirm` was invoked. -/
def decide_entry (db : DB) (incoming : Entry) (confirm : Bool) :
    EntryDecision × Bool :=
  match db.getEntry incoming.id with
  | none => (.AdoptRemote, false)
  | some local_entry =>
    let incoming_ts := incoming.last_update
    let local_ts := local_entry.last_update
    if incoming_ts = local_ts then
      if is_same_entry local_entry incoming then (.KeepLocal, false)
      else if confirm then (.AdoptRemote, true)
      else (.Abort "user rejected conflict resolution", true)
    else
      match incoming_ts, local_ts with
      | some r, some l => if l < r then (.AdoptRemote, false) else (.KeepLocal, false)
      | some _, none => (.AdoptRemote, false)
      | none, some _ => (.KeepLocal, false)
      | none, none => (.KeepLocal, false)

/-- State the client threads through its receive phase (client.rs lines
79-85): the store, the ids not yet accounted for by the server, and the
outbound send candidates.  Both `HashSet<String>` sets hold ULID strings in
the source; the sets of ids are carried as duplicate-free lists. -/
structure ClientState where
  db : DB
  remaining_local : List ServiceId
  send_candidates : List ServiceId
  deriving Repr, DecidableEq

/-- `HashSet::insert` on a set of ids. -/
def insertCandidate (l : List ServiceId) (id : ServiceId) : List ServiceId :=
  if id ∈ l then l else id :: l

/-- Handling of one received `ServerEntry` in the client's receive loop
(client.rs lines 89-126): drop the id from `remaining_local`, decide via the
conflict resolver, act and acknowledge.  Returns the packets sent, the new
state, and `Err` when the session fails. -/
def client_recv_step (st : ClientState) (entry : Entry) (confirm : Bool) :
    List SyncPacket × ClientState × Except String Unit :=
  let entry_id := entry.id
  let st1 := { st with
    remaining_local := st.remaining_local.filter (fun i => !(i == entry_id)) }
  match (decide_entry st1.db entry confirm).1 with
  | .AdoptRemote =>
    ([SyncPacket.entryAck entry_id true none],
     { st1 with db := st1.db.put entry }, .ok ())
  | .KeepLocal =>
    ([SyncPacket.entryAck entry_id true none],
     { st1 with send_candidates := insertCandidate st1.send_candidates entry_id },
     .ok ())
  | .Abort msg =>
    ([SyncPacket.entryAck entry_id false (some msg), SyncPacket.abort msg],
     st1, .error "aborted by user")

/-- Outcome of a server session: packets sent, final store state, result. -/
structure ServerOutcome where
  outputs : List SyncPacket
  db : DB
  result : Except String Unit
  deriving Repr

/-- Send phase of the server (server.rs lines 79-112): for each local id,
fetch the record, send `ServerEntry`, and block on the peer's reply.
Arguments: the store, the ids to send, the incoming packet script.  Returns
the packets sent, the unconsumed input, the count sent, and the result.  An
exhausted script models a blocking-read I/O failure. -/
def server_send_loop (db : DB) : List ServiceId → List SyncPacket →
    List SyncPacket × List SyncPacket × Nat × Except String Unit
  | [], input => ([], input, 0, .ok ())
  | id :: ids, input =>
    match db.getEntry id with
    | none => ([], input, 0, .error "missing entry during send")
    | some entry =>
      match input with
      | SyncPacket.entryAck _ackId accepted reason :: rest =>
        if accepted then
          let (outs, rem, n, res) := server_send_loop db ids rest
          (SyncPacket.serverEntry entry :: outs, rem, n + 1, res)
        else
          ([SyncPacket.serverEntry entry,
            SyncPacket.abort (reason.getD "rejected")],
           rest, 1, .error "client rejected entry")
      | SyncPacket.abort a :: rest =>
        ([SyncPacket.serverEntry entry], rest, 1,
         .error ("client aborted: " ++ a))
      | _ :: rest =>
        ([SyncPacket.serverEntry entry], rest, 1, .error "unexpected packet")
      | [] => ([SyncPacket.serverEntry entry], [], 1, .error "read length")

/-- Receive phase of the server (server.rs lines 123-187): apply each
`ClientEntry` via `put` and acknowledge; stop at `ClientEntriesEnd`, whose
count mismatch is only warned about.  Returns the packets sent, the final
store, the count received, and the result. -/
def server_recv_loop (db : DB) : List SyncPacket →
    List SyncPacket × DB × Nat × Except String Unit
  | [] => ([], db, 0, .error "read length")
  | pkt :: rest =>
    match pkt with
    | SyncPacket.clientEntry entry =>
      let db2 := db.put entry
      let (outs, db3, n, res) := server_recv_loop db2 rest
      (SyncPacket.entryAck entry.id true none :: outs, db3, n + 1, res)
    | SyncPacket.clientEntriesEnd _total => ([], db, 0, .ok ())
    | SyncPacket.abort a => ([], db, 0, .error ("client aborted: " ++ a))
    | _ => ([], db, 0, .error "unexpected packet")

/-- Accepted-handshake path of the server session (server.rs lines 66-199):
acknowledge the hello, run the send phase over a snapshot of all local ids,
send `ServerEntriesEnd`, run the receive phase, then send `Finished`. -/
def server_after_hello (db : DB) (rest : List SyncPacket) : ServerOutcome :=
  let ackOut := SyncPacket.helloAck PROTOCOL_VERSION true none
  match server_send_loop db db.all_service rest with
  | (souts, rem, sent, sres) =>
    match sres with
    | .error e => ⟨ackOut :: souts, db, .error e⟩
    | .ok _ =>
      let souts2 := souts ++ [SyncPacket.serverEntriesEnd sent]
      match server_recv_loop db rem with
      | (routs, db2, _received, rres) =>
        match rres with
        | .error e => ⟨ackOut :: (souts2 ++ routs), db2, .error e⟩
        | .ok _ =>
          ⟨ackOut :: (souts2 ++ routs ++ [SyncPacket.finished]), db2, .ok ()⟩

/-- Server session (server.rs `run`, lines 22-200) over an incoming packet
script: validate `Hello` (version, then role), then run the accepted path. -/
def server_run (db : DB) (input : List SyncPacket) : ServerOutcome :=
  match input with
  | [] => ⟨[], db, .error "read length"⟩
  | pkt :: rest =>
    match pkt with
    | SyncPacket.hello pv _node role _ms =>
      if pv ≠ PROTOCOL_VERSION then
        ⟨[SyncPacket.helloAck PROTOCOL_VERSION false
            (some "protocol version mismatch")],
         db, .error "protocol version mismatch"⟩
      else if role ≠ NodeRole.Client then
        ⟨[SyncPacket.helloAck PROTOCOL_VERSION false (some "role mismatch")],
         db, .error "unexpected role from peer"⟩
      else
        server_after_hello db rest
    | _ => ⟨[], db, .error "unexpected packet"⟩

/-! ### ULID encodings (the `ulid` crate behind `ServiceId` in types.rs) -/

/-- Fixed-width big-endian digit expansion: `beDigits base k n` is the `k`
base-`base` digits of `n`, most significant first (for `base = 256`,
`k = 16` this is `u128::to_be_bytes`, i.e. `Ulid::to_bytes`). -/
def beDigits (base : Nat) : Nat → Nat → List Nat
  | 0, _ => []
  | k + 1, n => (n / base ^ k) % base :: beDigits base k (n % base ^ k)

/-- Big-endian recomposition (`Ulid::from_bytes` / base-32 decode fold). -/
def ofBeDigits (base : Nat) (ds : List Nat) : Nat :=
  ds.foldl (fun acc d => acc * base + d) 0

/-- `Ulid::to_bytes`: the 16-byte big-endian binary form. -/
def ulidToBytes (n : Nat) : List Nat := beDigits 256 16 n

/-- `Ulid::from_bytes`. -/
def ulidFromBytes (bs : List Nat) : Nat := ofBeDigits 256 bs

/-- Crockford base-32 alphabet used by the `ulid` crate. -/
def CROCKFORD : List Char := "0123456789ABCDEFGHJKMNPQRSTVWXYZ".toList

/-- Digit to canonical Crockford character. -/
def encodeChar (d : Nat) : Char := CROCKFORD.getD d '0'

/-- Canonical Crockford character back to its digit (the crate additionally
accepts lowercase aliases, which canonical encodings never contain). -/
def decodeChar (c : Char) : Option Nat := CROCKFORD.indexOf? c

/-- `Ulid::to_string` / `ServiceId` display: the 26-character Crockford
base-32 encoding, most significant digit first. -/
def ulidToString (n : Nat) : String :=
  ⟨(beDigits 32 26 n).map encodeChar⟩

/-- Character-by-character base-32 decode, aborting at the first character
outside the alphabet (the crate's decode loop). -/
def decodeChars : List Char → Option (List Nat)
  | [] => some []
  | c :: cs =>
    match decodeChar c, decodeChars cs with
    | some d, some ds => some (d :: ds)
    | _, _ => none

/-- `ServiceId::from_string` (types.rs lines 88-90, via `Ulid::from_string`):
reject any length other than 26 and any non-alphabet character, then fold
the 26 digits. -/
def ulidFromString (s : String) : Option Nat :=
  if s.toList.length ≠ 26 then none
  else
    match decodeChars s.toList with
    | some ds => some (ofBeDigits 32 ds)
    | none => none

/-! ### Lemmas about the entry store -/

theorem lookupRow_upsert_self (l : List (ServiceId × Entry)) (id : ServiceId)
    (e : Entry) : lookupRow (upsertRow l id e) id = some e := by
  simp [lookupRow, upsertRow]

theorem find?_key_filter_out (l : List (ServiceId × Entry)) (id j : ServiceId)
    (h : j ≠ id) :
    (l.filter (fun p => !(p.1 == id))).find? (fun p => p.1 == j) =
      l.find? (fun p => p.1 == j) := by
  induction l with
  | nil => simp
  | cons x xs ih =>
    by_cases hid : x.1 = id
    · have hxj : ¬ (x.1 = j) := by rw [hid]; exact fun hh => h hh.symm
      simp [List.filter_cons, hid, List.find?_cons, hxj, h, Ne.symm h, ih]
    · by_cases hx : x.1 = j <;>
        simp [List.filter_cons, hid, List.find?_cons, hx, h, Ne.symm h, ih]

theorem lookupRow_upsert_ne (l : List (ServiceId × Entry)) (id j : ServiceId)
    (e : Entry) (h : j ≠ id) :
    lookupRow (upsertRow l id e) j = lookupRow l j := by
  simp only [lookupRow, upsertRow]
  rw [List.find?_cons_of_neg, find?_key_filter_out _ _ _ h]
  simp
  exact fun hh => h hh.symm

theorem mem_upsertRow (l : List (ServiceId × Entry)) (id : ServiceId)
    (e : Entry) (p : ServiceId × Entry) :
    p ∈ upsertRow l id e ↔ p = (id, e) ∨ (p ∈ l ∧ p.1 ≠ id) := by
  simp [upsertRow, List.mem_filter]

theorem mem_of_getEntry (db : DB) (id : ServiceId) (e : Entry)
    (h : db.getEntry id = some e) : (id, e) ∈ db.entries := by
  simp only [DB.getEntry, lookupRow, Option.map_eq_some'] at h
  obtain ⟨p, hp, he⟩ := h
  have hmem := List.mem_of_find?_eq_some hp
  have hkey := List.find?_some hp
  simp only [beq_iff_eq] at hkey
  have : p = (id, e) := by
    cases p
    simp only at hkey he
    simp [hkey, he]
  rwa [this] at hmem

theorem getEntry_none_keys (db : DB) (id : ServiceId)
    (h : db.getEntry id = none) : ∀ p ∈ db.entries, p.1 ≠ id := by
  simp only [DB.getEntry, lookupRow, Option.map_eq_none'] at h
  rw [List.find?_eq_none] at h
  intro p hp
  have := h p hp
  simpa using this

theorem mem_removeTagPair (l : List (String × ServiceId)) (tag : String)
    (id : ServiceId) (q : String × ServiceId) :
    q ∈ removeTagPair l tag id ↔ q ∈ l ∧ ¬(q.1 = tag ∧ q.2 = id) := by
  simp [removeTagPair, List.mem_filter]
  tauto

theorem mem_insertTagPair (l : List (String × ServiceId)) (tag : String)
    (id : ServiceId) (q : String × ServiceId) :
    q ∈ insertTagPair l tag id ↔ q ∈ l ∨ q = (tag, id) := by
  by_cases h : (tag, id) ∈ l
  · simp only [insertTagPair, if_pos h]
    exact ⟨Or.inl, fun hq => hq.elim (fun hh => hh) (fun hh => hh ▸ h)⟩
  · simp [insertTagPair, if_neg h]
    tauto

theorem mem_removeAll (ts : List String) (l : List (String × ServiceId))
    (id : ServiceId) (q : String × ServiceId) :
    q ∈ removeAll l id ts ↔ q ∈ l ∧ ¬(q.1 ∈ ts ∧ q.2 = id) := by
  induction ts generalizing l with
  | nil => simp [removeAll]
  | cons t ts ih =>
    have hstep : removeAll l id (t :: ts) = removeAll (removeTagPair l t id) id ts := rfl
    rw [hstep, ih, mem_removeTagPair]
    simp only [List.mem_cons]
    tauto

theorem mem_insertAll (ts : List String) (l : List (String × ServiceId))
    (id : ServiceId) (q : String × ServiceId) :
    q ∈ insertAll l id ts ↔ q ∈ l ∨ (q.1 ∈ ts ∧ q.2 = id) := by
  induction ts generalizing l with
  | nil => simp [insertAll]
  | cons t ts ih =>
    have hstep : insertAll l id (t :: ts) = insertAll (insertTagPair l t id) id ts := rfl
    rw [hstep, ih, mem_insertTagPair]
    simp only [List.mem_cons]
    constructor
    · rintro ((hq | rfl) | hq)
      · exact Or.inl hq
      · exact Or.inr ⟨Or.inl rfl, rfl⟩
      · exact Or.inr ⟨Or.inr hq.1, hq.2⟩
    · rintro (hq | ⟨(ht | ht), hid⟩)
      · exact Or.inl (Or.inl hq)
      · refine Or.inl (Or.inr ?_)
        cases q
        simp only at ht hid
        simp [ht, hid]
      · exact Or.inr ⟨ht, hid⟩

theorem put_entries (db : DB) (e : Entry) :
    (db.put e).entries = upsertRow db.entries e.id e := by
  cases h : db.getEntry e.id with
  | none =>
    simp only [DB.put, h]
    split <;> rfl
  | some existing =>
    simp only [DB.put, h]
    split
    · rfl
    · split
      · rfl
      · cases vec_diff existing.tags e.tags <;>
          cases vec_diff e.tags existing.tags <;> rfl

theorem getEntry_put_self (db : DB) (e : Entry) :
    (db.put e).getEntry e.id = some e := by
  simp [DB.getEntry, put_entries, lookupRow_upsert_self]

theorem getEntry_put_ne (db : DB) (e : Entry) (j : ServiceId) (h : j ≠ e.id) :
    (db.put e).getEntry j = db.getEntry j := by
  simp [DB.getEntry, put_entries, lookupRow_upsert_ne _ _ _ _ h]

/-- `diff` list computed inside `vec_diff`. -/
def diffList (a b : List String) : List String :=
  a.filter (fun v => !(b.contains v))

theorem mem_diffList (a b : List String) (t : String) :
    t ∈ diffList a b ↔ t ∈ a ∧ t ∉ b := by
  simp [diffList, List.mem_filter]

theorem vec_diff_eq_none (a b : List String) (h : vec_diff a b = none) :
    diffList a b = [] := by
  simp only [vec_diff, diffList] at h ⊢
  split at h
  · next hh => exact List.isEmpty_iff.mp hh
  · exact absurd h (by simp)

theorem vec_diff_eq_some (a b d : List String) (h : vec_diff a b = some d) :
    d = diffList a b := by
  simp only [vec_diff, diffList] at h ⊢
  split at h
  · exact absurd h (by simp)
  · exact (Option.some.injEq _ _ ▸ h).symm

theorem removeAll_nil (l : List (String × ServiceId)) (id : ServiceId) :
    removeAll l id [] = l := rfl

theorem insertAll_nil (l : List (String × ServiceId)) (id : ServiceId) :
    insertAll l id [] = l := rfl

theorem put_tags_new (db : DB) (e : Entry) (h : db.getEntry e.id = none) :
    (db.put e).tags =
      if e.is_removed then db.tags else insertAll db.tags e.id e.tags := by
  simp only [DB.put, h]
  cases hr : e.is_removed <;> simp [hr, expand_tag_list]

theorem put_tags_revive (db : DB) (e existing : Entry)
    (h : db.getEntry e.id = some existing)
    (hw : existing.is_removed = true) (hn : e.is_removed = false) :
    (db.put e).tags = insertAll db.tags e.id e.tags := by
  simp only [DB.put, h]
  simp [hw, hn, expand_tag_list]

theorem put_tags_softdel (db : DB) (e existing : Entry)
    (h : db.getEntry e.id = some existing)
    (hw : existing.is_removed = false) (hn : e.is_removed = true) :
    (db.put e).tags = removeAll db.tags e.id existing.tags := by
  simp only [DB.put, h]
  simp [hw, hn, shrink_tag_list]

theorem put_tags_same_status (db : DB) (e existing : Entry)
    (h : db.getEntry e.id = some existing)
    (hs : existing.is_removed = e.is_removed) :
    (db.put e).tags =
      insertAll (removeAll db.tags e.id (diffList existing.tags e.tags))
        e.id (diffList e.tags existing.tags) := by
  simp only [DB.put, h]
  cases hr : e.is_removed <;> rw [hr] at hs <;>
    cases h1 : vec_diff existing.tags e.tags <;>
    cases h2 : vec_diff e.tags existing.tags <;>
    simp [hs, hr, h1, h2, shrink_tag_list, expand_tag_list] <;>
    first
    | (rw [vec_diff_eq_none _ _ h1, vec_diff_eq_none _ _ h2, removeAll_nil, insertAll_nil])
    | (rw [vec_diff_eq_none _ _ h1, removeAll_nil, ← vec_diff_eq_some _ _ _ h2])
    | (rw [vec_diff_eq_none _ _ h2, insertAll_nil, ← vec_diff_eq_some _ _ _ h1])
    | (rw [← vec_diff_eq_some _ _ _ h1, ← vec_diff_eq_some _ _ _ h2])

theorem remove_none (db : DB) (id : ServiceId) (h : db.getEntry id = none) :
    db.remove id = db := by
  simp [DB.remove, h]

theorem remove_entries_some (db : DB) (id : ServiceId) (entry : Entry)
    (h : db.getEntry id = some entry) :
    (db.remove id).entries = db.entries.filter (fun p => !(p.1 == id)) := by
  simp [DB.remove, h, shrink_tag_list]

theorem remove_tags_some (db : DB) (id : ServiceId) (entry : Entry)
    (h : db.getEntry id = some entry) :
    (db.remove id).tags = removeAll db.tags id entry.tags := by
  simp [DB.remove, h, shrink_tag_list]

/-- The tag-index consistency invariant (spec section 3, "Tag Index"): every
active record's tags are indexed, and every indexed pair refers to an id
present in the primary table. -/
def Inv (db : DB) : Prop :=
  (∀ p ∈ db.entries, p.2.is_removed = false → ∀ t ∈ p.2.tags, (t, p.1) ∈ db.tags)
  ∧ ∀ q ∈ db.tags, ∃ p ∈ db.entries, p.1 = q.2

instance instDecidableInv (db : DB) : Decidable (Inv db) := by
  unfold Inv
  infer_instance

theorem put_tags_subset (db : DB) (e : Entry) (q : String × ServiceId)
    (hq : q ∈ (db.put e).tags) : q ∈ db.tags ∨ q.2 = e.id := by
  rcases hget : db.getEntry e.id with _ | existing
  · rw [put_tags_new _ _ hget] at hq
    split at hq
    · exact Or.inl hq
    · rcases (mem_insertAll _ _ _ _).mp hq with hh | hh
      · exact Or.inl hh
      · exact Or.inr hh.2
  · cases hw : existing.is_removed <;> cases hn : e.is_removed
    · rw [put_tags_same_status _ _ _ hget (hw.trans hn.symm)] at hq
      rcases (mem_insertAll _ _ _ _).mp hq with hh | hh
      · exact Or.inl ((mem_removeAll _ _ _ _).mp hh).1
      · exact Or.inr hh.2
    · rw [put_tags_softdel _ _ _ hget hw hn] at hq
      exact Or.inl ((mem_removeAll _ _ _ _).mp hq).1
    · rw [put_tags_revive _ _ _ hget hw hn] at hq
      rcases (mem_insertAll _ _ _ _).mp hq with hh | hh
      · exact Or.inl hh
      · exact Or.inr hh.2
    · rw [put_tags_same_status _ _ _ hget (hw.trans hn.symm)] at hq
      rcases (mem_insertAll _ _ _ _).mp hq with hh | hh
      · exact Or.inl ((mem_removeAll _ _ _ _).mp hh).1
      · exact Or.inr hh.2

theorem put_tags_keep (db : DB) (e : Entry) (q : String × ServiceId)
    (hq : q ∈ db.tags) (hne : q.2 ≠ e.id) : q ∈ (db.put e).tags := by
  rcases hget : db.getEntry e.id with _ | existing
  · rw [put_tags_new _ _ hget]
    split
    · exact hq
    · exact (mem_insertAll _ _ _ _).mpr (Or.inl hq)
  · cases hw : existing.is_removed <;> cases hn : e.is_removed
    · rw [put_tags_same_status _ _ _ hget (hw.trans hn.symm)]
      exact (mem_insertAll _ _ _ _).mpr
        (Or.inl ((mem_removeAll _ _ _ _).mpr ⟨hq, fun hh => hne hh.2⟩))
    · rw [put_tags_softdel _ _ _ hget hw hn]
      exact (mem_removeAll _ _ _ _).mpr ⟨hq, fun hh => hne hh.2⟩
    · rw [put_tags_revive _ _ _ hget hw hn]
      exact (mem_insertAll _ _ _ _).mpr (Or.inl hq)
    · rw [put_tags_same_status _ _ _ hget (hw.trans hn.symm)]
      exact (mem_insertAll _ _ _ _).mpr
        (Or.inl ((mem_removeAll _ _ _ _).mpr ⟨hq, fun hh => hne hh.2⟩))

theorem Inv_put (db : DB) (e : Entry) (hInv : Inv db) : Inv (db.put e) := by
  obtain ⟨h1, h2⟩ := hInv
  constructor
  · intro p hp hact t ht
    rw [put_entries, mem_upsertRow] at hp
    rcases hp with rfl | ⟨hp, hne⟩
    · dsimp only at hact ht ⊢
      rcases hget : db.getEntry e.id with _ | existing
      · rw [put_tags_new _ _ hget, hact]
        simp only [Bool.false_eq_true, if_false]
        exact (mem_insertAll _ _ _ _).mpr (Or.inr ⟨ht, rfl⟩)
      · cases hw : existing.is_removed
        · rw [put_tags_same_status _ _ _ hget (hw.trans hact.symm)]
          rw [mem_insertAll]
          by_cases htb : t ∈ existing.tags
          · left
            rw [mem_removeAll]
            refine ⟨h1 (e.id, existing) (mem_of_getEntry _ _ _ hget) hw t htb, ?_⟩
            rintro ⟨hd, _⟩
            exact ((mem_diffList _ _ _).mp hd).2 ht
          · right
            exact ⟨(mem_diffList _ _ _).mpr ⟨ht, htb⟩, rfl⟩
        · rw [put_tags_revive _ _ _ hget hw hact]
          exact (mem_insertAll _ _ _ _).mpr (Or.inr ⟨ht, rfl⟩)
    · have hold : (t, p.1) ∈ db.tags := h1 p hp hact t ht
      exact put_tags_keep db e (t, p.1) hold hne
  · intro q hq
    rcases put_tags_subset db e q hq with hmem | hid
    · rcases h2 q hmem with ⟨p, hp, hpe⟩
      by_cases hpe2 : p.1 = e.id
      · refine ⟨(e.id, e), ?_, ?_⟩
        · rw [put_entries, mem_upsertRow]
          exact Or.inl rfl
        · rw [← hpe2]
          exact hpe
      · refine ⟨p, ?_, hpe⟩
        rw [put_entries, mem_upsertRow]
        exact Or.inr ⟨hp, hpe2⟩
    · refine ⟨(e.id, e), ?_, hid.symm⟩
      rw [put_entries, mem_upsertRow]
      exact Or.inl rfl

theorem Inv_remove (db : DB) (id : ServiceId) (hInv : Inv db)
    (hcl : ∀ t, (t, id) ∈ db.tags → ∀ e, db.getEntry id = some e → t ∈ e.tags) :
    Inv (db.remove id) := by
  obtain ⟨h1, h2⟩ := hInv
  rcases hget : db.getEntry id with _ | entry
  · rw [remove_none _ _ hget]
    exact ⟨h1, h2⟩
  · constructor
    · intro p hp hact t ht
      rw [remove_entries_some _ _ _ hget, List.mem_filter] at hp
      obtain ⟨hp, hpne⟩ := hp
      have hne : p.1 ≠ id := by simpa using hpne
      rw [remove_tags_some _ _ _ hget, mem_removeAll]
      exact ⟨h1 p hp hact t ht, fun hh => hne hh.2⟩
    · intro q hq
      rw [remove_tags_some _ _ _ hget, mem_removeAll] at hq
      obtain ⟨hq, hnot⟩ := hq
      have hqid : q.2 ≠ id := by
        intro hh
        have hq' : (q.1, id) ∈ db.tags := by
          rw [← hh, Prod.mk.eta]
          exact hq
        exact hnot ⟨hcl q.1 hq' entry hget, hh⟩
      rcases h2 q hq with ⟨p, hp, hpe⟩
      have hpne : p.1 ≠ id := by rw [hpe]; exact hqid
      refine ⟨p, ?_, hpe⟩
      rw [remove_entries_some _ _ _ hget, List.mem_filter]
      exact ⟨hp, by simpa using hpne⟩

/-! ### Lemmas about the ULID encodings -/

theorem length_beDigits (base k : Nat) : ∀ n, (beDigits base k n).length = k := by
  induction k with
  | zero => intro n; rfl
  | succ k ih => intro n; simp [beDigits, ih]

theorem beDigits_lt (base k : Nat) (hb : 0 < base) :
    ∀ n, ∀ d ∈ beDigits base k n, d < base := by
  induction k with
  | zero => intro n d hd; simp [beDigits] at hd
  | succ k ih =>
    intro n d hd
    rw [beDigits] at hd
    rcases List.mem_cons.mp hd with rfl | h
    · exact Nat.mod_lt _ hb
    · exact ih _ d h

theorem foldl_base_acc (base : Nat) (ds : List Nat) (a : Nat) :
    ds.foldl (fun acc d => acc * base + d) a =
      a * base ^ ds.length + ofBeDigits base ds := by
  induction ds generalizing a with
  | nil => simp [ofBeDigits]
  | cons d ds ih =>
    simp only [List.foldl_cons, List.length_cons]
    rw [ih (a * base + d)]
    have hd : ofBeDigits base (d :: ds) = d * base ^ ds.length + ofBeDigits base ds := by
      show List.foldl _ 0 (d :: ds) = _
      rw [List.foldl_cons, ih (0 * base + d)]
      ring_nf
    rw [hd]
    ring

theorem ofBeDigits_cons (base d : Nat) (ds : List Nat) :
    ofBeDigits base (d :: ds) = d * base ^ ds.length + ofBeDigits base ds := by
  show List.foldl _ 0 (d :: ds) = _
  rw [List.foldl_cons, foldl_base_acc]
  ring_nf

theorem ofBeDigits_beDigits (base k : Nat) :
    ∀ n, ofBeDigits base (beDigits base k n) = n % base ^ k := by
  induction k with
  | zero => intro n; simp [beDigits, ofBeDigits, Nat.mod_one]
  | succ k ih =>
    intro n
    rw [beDigits, ofBeDigits_cons, length_beDigits, ih, Nat.mod_mod_of_dvd _ dvd_rfl,
      pow_succ, Nat.mod_mul]
    ring

/-- `Ulid::from_bytes ∘ Ulid::to_bytes` is the identity on 128-bit values. -/
theorem ulid_bytes_roundtrip (n : Nat) (h : n < 2 ^ 128) :
    ulidFromBytes (ulidToBytes n) = n := by
  have h16 : (256 : Nat) ^ 16 = 2 ^ 128 := by norm_num
  rw [ulidFromBytes, ulidToBytes, ofBeDigits_beDigits, h16, Nat.mod_eq_of_lt h]

theorem decode_encodeChar : ∀ d, d < 32 → decodeChar (encodeChar d) = some d := by
  decide

theorem decodeChars_map_encode (ds : List Nat) (h : ∀ d ∈ ds, d < 32) :
    decodeChars (ds.map encodeChar) = some ds := by
  induction ds with
  | nil => rfl
  | cons d ds ih =>
    have hd : decodeChar (encodeChar d) = some d :=
      decode_encodeChar d (h d (List.mem_cons_self _ _))
    have hds : decodeChars (ds.map encodeChar) = some ds :=
      ih (fun x hx => h x (List.mem_cons_of_mem _ hx))
    simp [decodeChars, hd, hds]

/-- `Ulid::from_string ∘ Ulid::to_string` is the identity on 128-bit values. -/
theorem ulid_string_roundtrip (n : Nat) (h : n < 2 ^ 128) :
    ulidFromString (ulidToString n) = some n := by
  have htl : (ulidToString n).toList = (beDigits 32 26 n).map encodeChar := rfl
  rw [ulidFromString, htl]
  have hlen : ((beDigits 32 26 n).map encodeChar).length = 26 := by
    rw [List.length_map, length_beDigits]
  rw [if_neg (by rw [hlen]; exact fun hh => hh rfl)]
  rw [decodeChars_map_encode _ (beDigits_lt 32 26 (by norm_num) n)]
  show some (ofBeDigits 32 (beDigits 32 26 n)) = some n
  rw [ofBeDigits_beDigits]
  have h26 : n < 32 ^ 26 := lt_of_lt_of_le h (by norm_num)
  rw [Nat.mod_eq_of_lt h26]

theorem lex_cons_iff_nat (x y : Nat) (l1 l2 : List Nat) :
    List.Lex (· < ·) (x :: l1) (y :: l2) ↔
      x < y ∨ (x = y ∧ List.Lex (· < ·) l1 l2) := by
  constructor
  · intro h
    cases h with
    | rel h => exact Or.inl h
    | cons h => exact Or.inr ⟨rfl, h⟩
  · rintro (h | ⟨rfl, h⟩)
    · exact List.Lex.rel h
    · exact List.Lex.cons h

theorem lt_of_div_lt (b m n : Nat) (hb : 0 < b) (h : m / b < n / b) : m < n :=
  calc m = b * (m / b) + m % b := (Nat.div_add_mod m b).symm
    _ < b * (m / b) + b := Nat.add_lt_add_left (Nat.mod_lt m hb) _
    _ = b * (m / b + 1) := by ring
    _ ≤ b * (n / b) := Nat.mul_le_mul le_rfl h
    _ ≤ b * (n / b) + n % b := Nat.le_add_right _ _
    _ = n := Nat.div_add_mod n b

theorem nat_lt_decompose (b m n : Nat) (hb : 0 < b) :
    m < n ↔ m / b < n / b ∨ (m / b = n / b ∧ m % b < n % b) := by
  rcases Nat.lt_trichotomy (m / b) (n / b) with hlt | heq | hgt
  · exact iff_of_true (lt_of_div_lt b m n hb hlt) (Or.inl hlt)
  · constructor
    · intro h
      refine Or.inr ⟨heq, ?_⟩
      have h1 := Nat.div_add_mod m b
      have h2 := Nat.div_add_mod n b
      rw [← h1, ← h2, heq] at h
      exact Nat.lt_of_add_lt_add_left h
    · rintro (h | ⟨_, h⟩)
      · exact absurd heq (Nat.ne_of_lt h)
      · rw [← Nat.div_add_mod m b, ← Nat.div_add_mod n b, heq]
        exact Nat.add_lt_add_left h _
  · refine iff_of_false (fun hmn => ?_) (fun hor => ?_)
    · exact absurd (lt_trans hmn (lt_of_div_lt b n m hb hgt)) (lt_irrefl m)
    · rcases hor with h | ⟨he, _⟩
      · exact absurd (lt_trans h hgt) (lt_irrefl _)
      · exact absurd he (Nat.ne_of_gt hgt)

theorem beDigits_lex (base k : Nat) (hb : 0 < base) :
    ∀ m n, m < base ^ k → n < base ^ k →
      (List.Lex (· < ·) (beDigits base k m) (beDigits base k n) ↔ m < n) := by
  induction k with
  | zero =>
    intro m n hm hn
    rw [pow_zero] at hm hn
    have hm0 : m = 0 := Nat.lt_one_iff.mp hm
    have hn0 : n = 0 := Nat.lt_one_iff.mp hn
    subst hm0; subst hn0
    refine iff_of_false (fun h => ?_) (lt_irrefl 0)
    cases h
  | succ k ih =>
    intro m n hm hn
    have hbk : 0 < base ^ k := pow_pos hb k
    have hmd : m / base ^ k < base := by
      rw [Nat.div_lt_iff_lt_mul hbk]
      rw [pow_succ, Nat.mul_comm] at hm
      exact hm
    have hnd : n / base ^ k < base := by
      rw [Nat.div_lt_iff_lt_mul hbk]
      rw [pow_succ, Nat.mul_comm] at hn
      exact hn
    rw [beDigits, beDigits, Nat.mod_eq_of_lt hmd, Nat.mod_eq_of_lt hnd,
      lex_cons_iff_nat,
      ih (m % base ^ k) (n % base ^ k) (Nat.mod_lt _ hbk) (Nat.mod_lt _ hbk)]
    exact (nat_lt_decompose (base ^ k) m n hbk).symm

/-- Numeric order on 128-bit values coincides with lexicographic order on
their 16-byte big-endian encodings (the derived `Ord` on `ServiceId` versus
`Key::compare`, types.rs lines 190-194). -/
theorem ulid_bytes_order (m n : Nat) (hm : m < 2 ^ 128) (hn : n < 2 ^ 128) :
    m < n ↔ List.Lex (· < ·) (ulidToBytes m) (ulidToBytes n) := by
  have h16 : (256 : Nat) ^ 16 = 2 ^ 128 := by norm_num
  rw [ulidToBytes, ulidToBytes,
    beDigits_lex 256 16 (by norm_num) m n (h16 ▸ hm) (h16 ▸ hn)]

/-! ### Lemmas for the sync orchestration -/

/-- Spec section 4.7 comparison rule for optional timestamps: an absent
timestamp is strictly older than any present one. -/
def ts_lt : Option Int → Option Int → Bool
  | none, some _ => true
  | some a, some b => decide (a < b)
  | _, _ => false

theorem mem_insertCandidate_self (l : List ServiceId) (id : ServiceId) :
    id ∈ insertCandidate l id := by
  by_cases h : id ∈ l <;> simp [insertCandidate, h]

theorem decide_entry_adopt (db : DB) (incoming local_entry : Entry)
    (confirm : Bool) (hget : db.getEntry incoming.id = some local_entry)
    (h : ts_lt local_entry.last_update incoming.last_update = true) :
    decide_entry db incoming confirm = (EntryDecision.AdoptRemote, false) := by
  cases hi : incoming.last_update with
  | none =>
    cases hl : local_entry.last_update <;> rw [hi, hl] at h <;> simp [ts_lt] at h
  | some r =>
    cases hl : local_entry.last_update with
    | none => simp [decide_entry, hget, hi, hl]
    | some l =>
      rw [hi, hl] at h
      simp only [ts_lt, decide_eq_true_eq] at h
      have hne : r ≠ l := ne_of_gt h
      simp [decide_entry, hget, hi, hl, hne, h]

theorem decide_entry_keep (db : DB) (incoming local_entry : Entry)
    (confirm : Bool) (hget : db.getEntry incoming.id = some local_entry)
    (h : ts_lt incoming.last_update local_entry.last_update = true) :
    decide_entry db incoming confirm = (EntryDecision.KeepLocal, false) := by
  cases hi : incoming.last_update with
  | none =>
    cases hl : local_entry.last_update with
    | none => rw [hi, hl] at h; simp [ts_lt] at h
    | some l => simp [decide_entry, hget, hi, hl]
  | some r =>
    cases hl : local_entry.last_update with
    | none => rw [hi, hl] at h; simp [ts_lt] at h
    | some l =>
      rw [hi, hl] at h
      simp only [ts_lt, decide_eq_true_eq] at h
      have hne : r ≠ l := ne_of_lt h
      have hnl : ¬ (l < r) := not_lt_of_gt h
      simp [decide_entry, hget, hi, hl, hne, hnl]

theorem all_service_isSome (db : DB) :
    ∀ id ∈ db.all_service, (db.getEntry id).isSome := by
  intro id hid
  rw [DB.all_service, List.mem_map] at hid
  obtain ⟨p, hp, rfl⟩ := hid
  rw [DB.getEntry, lookupRow, Option.isSome_map']
  exact List.find?_isSome.mpr ⟨p, hp, by simp⟩

theorem send_loop_acks (db : DB) (ids : List ServiceId)
    (tail : List SyncPacket) (h : ∀ id ∈ ids, (db.getEntry id).isSome) :
    ∃ outs, server_send_loop db ids
        (List.replicate ids.length (SyncPacket.entryAck 0 true none) ++ tail) =
      (outs, tail, ids.length, .ok ()) := by
  induction ids with
  | nil => exact ⟨[], rfl⟩
  | cons id ids ih =>
    obtain ⟨entry, hentry⟩ :=
      Option.isSome_iff_exists.mp (h id (List.mem_cons_self _ _))
    obtain ⟨outs, houts⟩ := ih (fun i hi => h i (List.mem_cons_of_mem _ hi))
    refine ⟨SyncPacket.serverEntry entry :: outs, ?_⟩
    simp [server_send_loop, hentry, List.replicate_succ, houts]

theorem recv_loop_entries (es : List Entry) (db : DB) (m : Nat) :
    server_recv_loop db
        (es.map SyncPacket.clientEntry ++ [SyncPacket.clientEntriesEnd m]) =
      (es.map (fun e => SyncPacket.entryAck e.id true none),
        es.foldl DB.put db, es.length, .ok ()) := by
  induction es generalizing db with
  | nil => rfl
  | cons e es ih => simp [server_recv_loop, ih]

theorem server_after_hello_head (db : DB) (rest : List SyncPacket) :
    ∃ tl, (server_after_hello db rest).outputs =
      SyncPacket.helloAck PROTOCOL_VERSION true none :: tl := by
  unfold server_after_hello
  rcases hS : server_send_loop db db.all_service rest with ⟨souts, rem, sent, sres⟩
  dsimp only
  cases sres with
  | error e => exact ⟨souts, rfl⟩
  | ok u =>
    rcases hR : server_recv_loop db rem with ⟨routs, db2, recvd, rres⟩
    cases rres with
    | error e => exact ⟨_, rfl⟩
    | ok u2 => exact ⟨_, rfl⟩

/-! ### Transaction bodies for claim C4 -/

/-- A writer-transaction body: a sequence of `EntryWriter` calls made inside
`with_write_transaction`. -/
inductive WriterOp
  | putOp (e : Entry)
  | removeOp (id : ServiceId)

/-- Execute a sequence of writer calls on the transaction's working state. -/
def runOps (db : DB) : List WriterOp → DB
  | [] => db
  | .putOp e :: ops => runOps (db.put e) ops
  | .removeOp id :: ops => runOps (db.remove id) ops

/-- A transaction body that performs `ops` and then returns `Ok`, or fails. -/
def ops_txn (ops : List WriterOp) (fail : Bool) :
    DB → Except String (Unit × DB) :=
  fun db =>
    if fail then .error "transaction body failed"
    else .ok ((), runOps db ops)

/-! ### Claims -/

/-- Claim C4: `with_write_transaction` is atomic — when the supplied body
(an arbitrary sequence of put/remove calls) returns `Ok`, its changes are
committed; when it returns an error, the state observable afterwards
through `get`, `all_ids`, `tagged_ids` and `all_tags` is the state from
before the transaction. -/
theorem c4_write_transaction_atomic {α : Type} (db : DB)
    (f : DB → Except String (α × DB)) (ops : List WriterOp)
    (id : ServiceId) (tag : String) :
    (∀ v db2, f db = .ok (v, db2) → with_write_transaction db f = (.ok v, db2))
      ∧ (∀ msg, f db = .error msg →
          with_write_transaction db f = (.error msg, db))
      ∧ with_write_transaction db (ops_txn ops false) = (.ok (), runOps db ops)
      ∧ (with_write_transaction db (ops_txn ops true)).2.getEntry id =
          db.getEntry id
      ∧ (with_write_transaction db (ops_txn ops true)).2.all_service =
          db.all_service
      ∧ (with_write_transaction db (ops_txn ops true)).2.tagged_service tag =
          db.tagged_service tag
      ∧ (with_write_transaction db (ops_txn ops true)).2.all_tags =
          db.all_tags := by
  refine ⟨?_, ?_, rfl, rfl, rfl, rfl, rfl⟩
  · intro v db2 h
    simp [with_write_transaction, h]
  · intro msg h
    simp [with_write_transaction, h]

def c4_db : DB := ⟨[], []⟩

def c4_ok_f : DB → Except String (Unit × DB) := fun db => .ok ((), db)

/-- Witness for C4 at a concrete store and transaction body. -/
theorem c4_witness :
    with_write_transaction c4_db c4_ok_f = (.ok (), c4_db)
      ∧ with_write_transaction c4_db (ops_txn [] false) =
          (.ok (), runOps c4_db []) := by
  have h := c4_write_transaction_atomic c4_db c4_ok_f [] 0 "t"
  exact ⟨h.1 () c4_db rfl, h.2.2.1⟩

/-- Claim C7: every id returned by `tagged_ids(tag)` refers to a stored,
non-removed record, and a soft-deleted record's id is never returned, even
when the tag multimap still contains the (tag, id) pair. -/
theorem c7_tagged_service_excludes_removed (db : DB) (tag : String)
    (id : ServiceId) :
    (id ∈ db.tagged_service tag →
        ∃ e, db.getEntry id = some e ∧ e.is_removed = false)
      ∧ ∀ e, db.getEntry id = some e → e.is_removed = true →
          id ∉ db.tagged_service tag := by
  constructor
  · intro hid
    simp only [DB.tagged_service, List.mem_filter] at hid
    obtain ⟨_, hcond⟩ := hid
    rcases hE : db.getEntry id with _ | e
    · rw [hE] at hcond
      simp at hcond
    · rw [hE] at hcond
      simp only [Bool.not_eq_true'] at hcond
      exact ⟨e, rfl, hcond⟩
  · intro e hE hrem hid
    simp only [DB.tagged_service, List.mem_filter] at hid
    obtain ⟨_, hcond⟩ := hid
    rw [hE] at hcond
    simp [hrem] at hcond

def c7_removed : Entry := ⟨1, "gone", [], ["t"], [], none, some true⟩

def c7_db : DB := ⟨[(1, c7_removed)], [("t", 1)]⟩

/-- Witness for C7: a soft-deleted record whose pair is still indexed is
filtered out of `tagged_ids`. -/
theorem c7_witness : ("t", 1) ∈ c7_db.tags ∧ 1 ∉ c7_db.tagged_service "t" :=
  ⟨by decide,
    (c7_tagged_service_excludes_removed c7_db "t" 1).2 c7_removed
      (by decide) (by decide)⟩

/-- Claim C9: the 26-character text encoding and the 16-byte binary
encoding of an identifier round-trip exactly, and identifier order is the
byte-wise (lexicographic) order of the binary form. -/
theorem c9_identifier_encodings (n m : Nat) (hn : n < 2 ^ 128)
    (hm : m < 2 ^ 128) :
    ulidFromString (ulidToString n) = some n
      ∧ ulidFromBytes (ulidToBytes n) = n
      ∧ (m < n ↔ List.Lex (· < ·) (ulidToBytes m) (ulidToBytes n)) :=
  ⟨ulid_string_roundtrip n hn, ulid_bytes_roundtrip n hn,
    ulid_bytes_order m n hm hn⟩

/-- Witness for C9 at concrete identifiers 3 and 1. -/
theorem c9_witness :
    ulidFromString (ulidToString 3) = some 3
      ∧ ulidFromBytes (ulidToBytes 3) = 3
      ∧ (1 < 3 ↔ List.Lex (· < ·) (ulidToBytes 1) (ulidToBytes 3)) :=
  c9_identifier_encodings 3 1 (by norm_num) (by norm_num)

def c2_prior : Entry := ⟨1, "svc", [], ["a"], [], none, some true⟩

def c2_next : Entry := ⟨1, "svc", [], ["b"], [], none, some true⟩

def c2_db : DB := ⟨[(1, c2_prior)], []⟩

/-- Counterexample to claim C2: prior and new record are both soft-deleted
with tag lists `["a"]` and `["b"]`; `put` nevertheless adds the pair
`("b", 1)` to the tag multimap. -/
theorem c2_counterexample :
    c2_prior.is_removed = true ∧ c2_next.is_removed = true
      ∧ c2_db.getEntry c2_next.id = some c2_prior
      ∧ ("b", 1) ∈ (c2_db.put c2_next).tags ∧ ("b", 1) ∉ c2_db.tags := by
  decide

/-- Claim C2 (amended): when the prior and the new record both carry the
removed flag, `put` applies the same symmetric-difference tag-index update
as for two active records — pairs under tags only in the old list are
removed, pairs under tags only in the new list are added — and the row is
upserted; the index is untouched only when the tag difference is empty. -/
theorem c2_removed_removed_diff (db : DB) (e existing : Entry)
    (q : String × ServiceId) (hget : db.getEntry e.id = some existing)
    (hw : existing.is_removed = true) (hn : e.is_removed = true) :
    (q ∈ (db.put e).tags ↔
        (q ∈ db.tags ∧ ¬(q.1 ∈ existing.tags ∧ q.1 ∉ e.tags ∧ q.2 = e.id))
          ∨ (q.1 ∈ e.tags ∧ q.1 ∉ existing.tags ∧ q.2 = e.id))
      ∧ (db.put e).getEntry e.id = some e := by
  constructor
  · rw [put_tags_same_status _ _ _ hget (hw.trans hn.symm), mem_insertAll,
      mem_removeAll]
    simp only [mem_diffList]
    tauto
  · exact getEntry_put_self db e

/-- Witness for the amended C2 at the concrete counterexample data. -/
theorem c2_amended_witness :
    (("b", 1) ∈ (c2_db.put c2_next).tags ↔
        (("b", 1) ∈ c2_db.tags
            ∧ ¬("b" ∈ c2_prior.tags ∧ "b" ∉ c2_next.tags ∧ 1 = c2_next.id))
          ∨ ("b" ∈ c2_next.tags ∧ "b" ∉ c2_prior.tags ∧ 1 = c2_next.id))
      ∧ (c2_db.put c2_next).getEntry c2_next.id = some c2_next :=
  c2_removed_removed_diff c2_db c2_next c2_prior ("b", 1)
    (by decide) (by decide) (by decide)

def c3_rec : Entry := ⟨1, "svc", [], [], [], none, none⟩

def c3_db : DB := ⟨[(1, c3_rec)], [("t", 1)]⟩

/-- Counterexample to claim C3: a consistent state (active record with no
tags; a stale indexed pair for its id — reachable through puts of
soft-deleted records) from which `remove` leaves a dangling index pair,
breaking the second direction of the invariant. -/
theorem c3_counterexample : Inv c3_db ∧ ¬ Inv (c3_db.remove 1) := by
  decide

def c3w_rec : Entry := ⟨1, "svc", [], ["t"], [], none, none⟩

def c3w_db : DB := ⟨[(1, c3w_rec)], [("t", 1)]⟩

def c3w_e : Entry := ⟨2, "x", [], [], [], none, none⟩

/-- Claim C3 (amended): from a consistent state, `put` always preserves
the tag-index invariant; `remove` preserves it provided every indexed pair
for the removed id lies within that record's current tag list (without
that proviso a stale pair survives the removal and dangles). -/
theorem c3_inv_preservation (db : DB) (e : Entry) (id : ServiceId)
    (hInv : Inv db) :
    Inv (db.put e)
      ∧ ((∀ t, (t, id) ∈ db.tags →
            ∀ e0, db.getEntry id = some e0 → t ∈ e0.tags) →
          Inv (db.remove id)) :=
  ⟨Inv_put db e hInv, fun hcl => Inv_remove db id hInv hcl⟩

/-- Witness for the amended C3 at a concrete consistent store. -/
theorem c3_witness : Inv (c3w_db.put c3w_e) ∧ Inv (c3w_db.remove 1) := by
  have hcl : ∀ t, (t, 1) ∈ c3w_db.tags →
      ∀ e0, c3w_db.getEntry 1 = some e0 → t ∈ e0.tags := by
    intro t ht e0 he0
    have h3 : t = "t" := by simpa [c3w_db] using ht
    have hrec : c3w_db.getEntry 1 = some c3w_rec := by decide
    rw [hrec] at he0
    have h4 : c3w_rec = e0 := Option.some.inj he0
    rw [← h4, h3]
    decide
  have h := c3_inv_preservation c3w_db c3w_e 1 (by decide)
  exact ⟨h.1, h.2 hcl⟩

def c1_local : Entry := ⟨1, "sv1", [], [], [], none, none⟩

def c1_incoming : Entry := ⟨1, "sv2", [], [], [], none, none⟩

def c1_db : DB := ⟨[(1, c1_local)], []⟩

/-- Counterexample to claim C1: incoming and local record both lack a
timestamp and differ in content (service name); the resolver invokes the
prompter and returns `Abort` (decline) or `AdoptRemote` (accept), never the
claimed unconditional `KeepLocal`. -/
theorem c1_counterexample :
    c1_incoming.last_update = none ∧ c1_local.last_update = none
      ∧ c1_db.getEntry c1_incoming.id = some c1_local
      ∧ decide_entry c1_db c1_incoming false =
          (EntryDecision.Abort "user rejected conflict resolution", true)
      ∧ decide_entry c1_db c1_incoming true =
          (EntryDecision.AdoptRemote, true) := by
  decide

/-- Claim C1 (amended): two absent timestamps compare equal, so the
equal-timestamp rule applies — identical content yields `KeepLocal` without
consulting the prompter; differing content consults the prompter, adopting
the remote record on accept and aborting on decline. -/
theorem c1_both_absent_equal (db : DB) (incoming local_entry : Entry)
    (confirm : Bool) (hget : db.getEntry incoming.id = some local_entry)
    (hi : incoming.last_update = none)
    (hl : local_entry.last_update = none) :
    decide_entry db incoming confirm =
      if is_same_entry local_entry incoming then
        (EntryDecision.KeepLocal, false)
      else if confirm then (EntryDecision.AdoptRemote, true)
      else (EntryDecision.Abort "user rejected conflict resolution", true) := by
  simp [decide_entry, hget, hi, hl]

/-- Witness for the amended C1 at the concrete counterexample data. -/
theorem c1_amended_witness :
    decide_entry c1_db c1_incoming false =
      if is_same_entry c1_local c1_incoming then
        (EntryDecision.KeepLocal, false)
      else if false then (EntryDecision.AdoptRemote, true)
      else (EntryDecision.Abort "user rejected conflict resolution", true) :=
  c1_both_absent_equal c1_db c1_incoming c1_local false (by decide) rfl rfl

/-- Claim C5: when the timestamps differ (an absent one comparing strictly
older), a strictly newer incoming record is adopted — the store then holds
the remote content — while a strictly newer local record is kept: the store
is unchanged and the id joins the outbound send candidates; in both cases
the step succeeds. -/
theorem c5_timestamp_ordering (st : ClientState) (entry local_entry : Entry)
    (confirm : Bool) (hget : st.db.getEntry entry.id = some local_entry) :
    (ts_lt local_entry.last_update entry.last_update = true →
        (decide_entry st.db entry confirm).1 = EntryDecision.AdoptRemote
          ∧ (client_recv_step st entry confirm).2.1.db.getEntry entry.id =
              some entry
          ∧ (client_recv_step st entry confirm).2.2 = .ok ())
      ∧ (ts_lt entry.last_update local_entry.last_update = true →
        (decide_entry st.db entry confirm).1 = EntryDecision.KeepLocal
          ∧ (client_recv_step st entry confirm).2.1.db = st.db
          ∧ entry.id ∈ (client_recv_step st entry confirm).2.1.send_candidates
          ∧ (client_recv_step st entry confirm).2.2 = .ok ()) := by
  constructor
  · intro h
    have hd := decide_entry_adopt st.db entry local_entry confirm hget h
    refine ⟨by rw [hd], ?_, ?_⟩ <;>
      simp [client_recv_step, hd, getEntry_put_self]
  · intro h
    have hd := decide_entry_keep st.db entry local_entry confirm hget h
    refine ⟨by rw [hd], ?_, ?_, ?_⟩ <;>
      simp [client_recv_step, hd, mem_insertCandidate_self]

def c5_local : Entry := ⟨1, "s", [], [], [], none, none⟩

def c5_incoming : Entry := ⟨1, "s2", [], [], [], some 5, none⟩

def c5_st : ClientState := ⟨⟨[(1, c5_local)], []⟩, [1], []⟩

/-- Witness for C5: a timestamped incoming record against an untimestamped
local one is strictly newer and gets adopted. -/
theorem c5_witness :
    (decide_entry c5_st.db c5_incoming false).1 = EntryDecision.AdoptRemote
      ∧ (client_recv_step c5_st c5_incoming false).2.1.db.getEntry
          c5_incoming.id = some c5_incoming
      ∧ (client_recv_step c5_st c5_incoming false).2.2 = .ok () :=
  (c5_timestamp_ordering c5_st c5_incoming c5_local false (by decide)).1
    (by decide)

/-- Claim C10: in the client's receive phase, an `AdoptRemote` or
`KeepLocal` decision is answered with `EntryAck(accepted=true)` and the
step succeeds; only an `Abort` decision produces
`EntryAck(accepted=false)`, immediately followed by an `Abort` packet, and
fails the session. -/
theorem c10_client_ack (st : ClientState) (entry : Entry) (confirm : Bool) :
    ((decide_entry st.db entry confirm).1 = EntryDecision.AdoptRemote
        ∨ (decide_entry st.db entry confirm).1 = EntryDecision.KeepLocal →
      (client_recv_step st entry confirm).1 =
          [SyncPacket.entryAck entry.id true none]
        ∧ (client_recv_step st entry confirm).2.2 = .ok ())
      ∧ ∀ msg, (decide_entry st.db entry confirm).1 = EntryDecision.Abort msg →
        (client_recv_step st entry confirm).1 =
            [SyncPacket.entryAck entry.id false (some msg),
              SyncPacket.abort msg]
          ∧ (client_recv_step st entry confirm).2.2 =
              .error "aborted by user" := by
  constructor
  · rintro (hd | hd) <;> simp [client_recv_step, hd]
  · intro msg hd
    simp [client_recv_step, hd]

/-- Witness for C10: an adopted entry is acknowledged with accepted=true. -/
theorem c10_witness :
    (client_recv_step c5_st c5_incoming false).1 =
        [SyncPacket.entryAck c5_incoming.id true none]
      ∧ (client_recv_step c5_st c5_incoming false).2.2 = .ok () :=
  (c10_client_ack c5_st c5_incoming false).1 (Or.inl (by decide))

/-- Claim C6: a `Hello` with a foreign protocol version, or a role other
than `Client`, is answered with `HelloAck(accepted=false, reason)` and the
session fails with the store untouched and no record sent; an accepted
`Hello` is answered with `HelloAck(accepted=true)` before anything else. -/
theorem c6_server_hello_gate (db : DB) (pv : Nat) (node : String)
    (role : NodeRole) (ms : Nat) (rest : List SyncPacket) :
    ((pv ≠ PROTOCOL_VERSION ∨ role ≠ NodeRole.Client) →
      server_run db (SyncPacket.hello pv node role ms :: rest) =
          ⟨[SyncPacket.helloAck PROTOCOL_VERSION false
              (some "protocol version mismatch")], db,
            .error "protocol version mismatch"⟩
        ∨ server_run db (SyncPacket.hello pv node role ms :: rest) =
          ⟨[SyncPacket.helloAck PROTOCOL_VERSION false (some "role mismatch")],
            db, .error "unexpected role from peer"⟩)
      ∧ (pv = PROTOCOL_VERSION → role = NodeRole.Client →
        ∃ tl,
          (server_run db (SyncPacket.hello pv node role ms :: rest)).outputs =
            SyncPacket.helloAck PROTOCOL_VERSION true none :: tl) := by
  constructor
  · intro h
    by_cases hpv : pv = PROTOCOL_VERSION
    · have hrole : role ≠ NodeRole.Client := by
        rcases h with h | h
        · exact absurd hpv h
        · exact h
      refine Or.inr ?_
      simp [server_run, hpv, hrole]
    · refine Or.inl ?_
      simp [server_run, hpv]
  · intro hpv hrole
    subst hpv
    subst hrole
    have hrun : server_run db
        (SyncPacket.hello PROTOCOL_VERSION node NodeRole.Client ms :: rest) =
        server_after_hello db rest := by
      simp [server_run]
    rw [hrun]
    exact server_after_hello_head db rest

def c6_db : DB := ⟨[], []⟩

/-- Witness for C6: a version-2 hello against the version-1 server is
rejected with no output past the negative `HelloAck`. -/
theorem c6_witness :
    server_run c6_db [SyncPacket.hello 2 "n" NodeRole.Client 0] =
        ⟨[SyncPacket.helloAck PROTOCOL_VERSION false
            (some "protocol version mismatch")], c6_db,
          .error "protocol version mismatch"⟩
      ∨ server_run c6_db [SyncPacket.hello 2 "n" NodeRole.Client 0] =
        ⟨[SyncPacket.helloAck PROTOCOL_VERSION false (some "role mismatch")],
          c6_db, .error "unexpected role from peer"⟩ :=
  (c6_server_hello_gate c6_db 2 "n" NodeRole.Client 0 []).1
    (Or.inl (by decide))

/-- Claim C8: a `ClientEntriesEnd` whose declared count differs from the
number of entries actually received is not fatal — the server exits the
receive loop, sends `Finished` as its last packet, returns success, and
has applied every received entry. -/
theorem c8_count_mismatch_nonfatal (db : DB) (node : String) (ms : Nat)
    (es : List Entry) (m : Nat) (_hm : m ≠ es.length) :
    (server_run db (SyncPacket.hello PROTOCOL_VERSION node NodeRole.Client ms ::
        (List.replicate db.all_service.length (SyncPacket.entryAck 0 true none)
          ++ (es.map SyncPacket.clientEntry
            ++ [SyncPacket.clientEntriesEnd m])))).result = .ok ()
      ∧ (server_run db (SyncPacket.hello PROTOCOL_VERSION node NodeRole.Client
            ms :: (List.replicate db.all_service.length
              (SyncPacket.entryAck 0 true none)
          ++ (es.map SyncPacket.clientEntry
            ++ [SyncPacket.clientEntriesEnd m])))).outputs.getLast? =
          some SyncPacket.finished
      ∧ (server_run db (SyncPacket.hello PROTOCOL_VERSION node NodeRole.Client
            ms :: (List.replicate db.all_service.length
              (SyncPacket.entryAck 0 true none)
          ++ (es.map SyncPacket.clientEntry
            ++ [SyncPacket.clientEntriesEnd m])))).db = es.foldl DB.put db := by
  have hrun : server_run db (SyncPacket.hello PROTOCOL_VERSION node
      NodeRole.Client ms :: (List.replicate db.all_service.length
        (SyncPacket.entryAck 0 true none)
      ++ (es.map SyncPacket.clientEntry ++ [SyncPacket.clientEntriesEnd m]))) =
      server_after_hello db (List.replicate db.all_service.length
        (SyncPacket.entryAck 0 true none)
      ++ (es.map SyncPacket.clientEntry ++ [SyncPacket.clientEntriesEnd m])) := by
    simp [server_run]
  obtain ⟨outs, houts⟩ := send_loop_acks db db.all_service
    (es.map SyncPacket.clientEntry ++ [SyncPacket.clientEntriesEnd m])
    (all_service_isSome db)
  have hsah : server_after_hello db (List.replicate db.all_service.length
        (SyncPacket.entryAck 0 true none)
      ++ (es.map SyncPacket.clientEntry ++ [SyncPacket.clientEntriesEnd m])) =
      ⟨SyncPacket.helloAck PROTOCOL_VERSION true none ::
          (outs ++ [SyncPacket.serverEntriesEnd db.all_service.length]
            ++ es.map (fun e => SyncPacket.entryAck e.id true none)
            ++ [SyncPacket.finished]),
        es.foldl DB.put db, .ok ()⟩ := by
    unfold server_after_hello
    rw [houts]
    dsimp only
    rw [recv_loop_entries]
  rw [hrun, hsah]
  refine ⟨rfl, ?_, rfl⟩
  rw [← List.cons_append, List.getLast?_concat]

def c8_db : DB := ⟨[], []⟩

def c8_entry : Entry := ⟨7, "svc", [], [], [], none, none⟩

/-- Witness for C8: a declared count of 5 against one actually received
entry still finishes successfully. -/
theorem c8_witness :
    (server_run c8_db (SyncPacket.hello PROTOCOL_VERSION "n" NodeRole.Client 0
        :: (List.replicate c8_db.all_service.length
            (SyncPacket.entryAck 0 true none)
          ++ ([c8_entry].map SyncPacket.clientEntry
            ++ [SyncPacket.clientEntriesEnd 5])))).result = .ok ()
      ∧ (server_run c8_db (SyncPacket.hello PROTOCOL_VERSION "n"
          NodeRole.Client 0 :: (List.replicate c8_db.all_service.length
            (SyncPacket.entryAck 0 true none)
          ++ ([c8_entry].map SyncPacket.clientEntry
            ++ [SyncPacket.clientEntriesEnd 5])))).outputs.getLast? =
          some SyncPacket.finished := by
  have h := c8_count_mismatch_nonfatal c8_db "n" 0 [c8_entry] 5 (by decide)
  exact ⟨h.1, h.2.1⟩

end Pwmgr
